import Mathlib

/-!
Shallow embedding of the `lml-demo` repository:
`src/lml_adversarial_cert.py` (combinatorial certifier) and
`src/lml_demo.py` (lexical admissibility gate).

Python integers are arbitrary precision, so integer values are modelled
by `Int`; loop indices (`depth` in `range(1, max_depth + 1)`) are `Nat`.
Strings are modelled as `List Char`; Python's `str.lower()` is modelled
by mapping `Char.toLower` (the texts and markers involved are ASCII).
-/

namespace LML

/-! ### Certifier state (`CombinatoricalCertifier`) -/

/-- The mutable state of `CombinatoricalCertifier`: `max_depth` is stored at
construction, and the two path counters start at `0` (`__init__`, lines 52–55). -/
structure Certifier where
  max_depth : Int
  admissible_paths : Int
  blocked_paths : Int
  deriving Repr, DecidableEq

/-- `CombinatoricalCertifier(max_depth)`: counters initialised to zero. -/
def Certifier.init (max_depth : Int) : Certifier :=
  { max_depth := max_depth, admissible_paths := 0, blocked_paths := 0 }

/-- The depth sequence of the loop `for depth in range(1, max_depth + 1)`:
the list `[1, 2, ..., max_depth]`, empty when `max_depth ≤ 0`
(Python's `range(1, n + 1)` is empty for `n ≤ 0`). -/
def certDepths (max_depth : Int) : List Nat :=
  (List.range max_depth.toNat).map (fun i => i + 1)

/-- One iteration of the loop body of `certify` (lines 74–86):
`total_at_depth = 3 ** depth`; `admissible_0_evolves = 2 ** depth`;
`admissible_1_evolve = depth * 2 ** (depth - 1)`; the admissible sum is
added to `admissible_paths` and `total - admissible` to `blocked_paths`. -/
def stepDepth (c : Certifier) (depth : Nat) : Certifier :=
  let total_at_depth : Int := 3 ^ depth
  let admissible_0_evolves : Int := 2 ^ depth
  let admissible_1_evolve : Int := (depth : Int) * 2 ^ (depth - 1)
  let admissible_at_depth : Int := admissible_0_evolves + admissible_1_evolve
  { c with
    admissible_paths := c.admissible_paths + admissible_at_depth,
    blocked_paths := c.blocked_paths + (total_at_depth - admissible_at_depth) }

/-- `CombinatoricalCertifier.certify`: fold the loop body over the depth
sequence, mutating (here: threading) the counter state. -/
def Certifier.certify (c : Certifier) : Certifier :=
  (certDepths c.max_depth).foldl stepDepth c

/-- The per-depth admissible count the loop computes:
`2 ** depth + depth * 2 ** (depth - 1)` (lines 80–82). -/
def admissibleAt (depth : Nat) : Int :=
  2 ^ depth + (depth : Int) * 2 ^ (depth - 1)

/-- The per-depth blocked count the loop computes:
`total_at_depth - admissible_at_depth` (line 86). -/
def blockedAt (depth : Nat) : Int :=
  3 ^ depth - admissibleAt depth

/-- The dictionary `run_certification` returns (lines 138–143). -/
structure CertResult where
  total_paths : Int
  admissible : Int
  blocked : Int
  leaked : Int
  deriving Repr, DecidableEq

/-- `run_certification(max_depth)` (lines 93–143): build a fresh certifier,
run `certify`, and package the totals; `leaked` is the literal `0`.
The source performs no validation of `max_depth` and raises no exception,
so the embedding is a total function. -/
def run_certification (max_depth : Int) : CertResult :=
  let certifier := (Certifier.init max_depth).certify
  { total_paths := certifier.admissible_paths + certifier.blocked_paths,
    admissible := certifier.admissible_paths,
    blocked := certifier.blocked_paths,
    leaked := 0 }

/-! ### Admissibility gate (`lml_gate`, `src/lml_demo.py` lines 28–50) -/

/-- `text.lower()` on the character list (the markers and test texts are
ASCII, where `Char.toLower` agrees with Python's `str.lower()`). -/
def lowerChars (text : List Char) : List Char :=
  text.map Char.toLower

/-- `pat.isPrefixOf txt` for character lists, written out explicitly. -/
def leadsWith : List Char → List Char → Bool
  | [], _ => true
  | _ :: _, [] => false
  | a :: pat, b :: txt => a == b && leadsWith pat txt

/-- Python's substring test `pat in txt`: `pat` occurs contiguously in
`txt` (the empty pattern occurs in every text, as in Python). -/
def occursIn (pat : List Char) : List Char → Bool
  | [] => leadsWith pat []
  | c :: rest => leadsWith pat (c :: rest) || occursIn pat rest

/-- The hardcoded `grounding_markers` list (lines 37–47), in source order. -/
def grounding_markers : List (List Char) :=
  ["according to".toList, "study".toList, "research".toList,
   "published".toList, "source".toList, "evidence".toList,
   "paper".toList, "journal".toList, "documented".toList]

/-- Modelled from the spec: the spec's `evaluate(text, rules)` takes the
`GroundingRuleSet` as a parameter, while the source hardcodes the rule list
inside `lml_gate`. This is the source's matching loop
`any(marker in text_lower for marker in rules)` abstracted over the rule
collection, exactly as the spec's contract requires. -/
def gateWith (rules : List (List Char)) (text : List Char) : Bool :=
  let text_lower := lowerChars text
  rules.any (fun marker => occursIn marker text_lower)

/-- `lml_gate(text)`: lowercase the text, return whether any of the
hardcoded grounding markers occurs in it as a substring (lines 49–50). -/
def lml_gate (text : List Char) : Bool :=
  gateWith grounding_markers text

/-- The first marker (in the fixed list order the source iterates in) that
occurs in the lowered text, if any.  The source's generator expression
short-circuits at exactly this marker, but `lml_gate` returns only the
boolean, not the marker itself. -/
def firstMatch (text : List Char) : Option (List Char) :=
  let text_lower := lowerChars text
  grounding_markers.find? (fun marker => occursIn marker text_lower)

/-- `pat` occurs in `txt` as a contiguous substring, stated structurally. -/
def SubstrOf (pat txt : List Char) : Prop :=
  ∃ pre post, txt = pre ++ pat ++ post

/-- Split a character list into space-separated words (used only to state
that a marker does not occur as a standalone word). -/
def splitWordsAux (acc : List Char) : List Char → List (List Char)
  | [] => [acc.reverse]
  | c :: rest =>
    if c = ' ' then acc.reverse :: splitWordsAux [] rest
    else splitWordsAux (c :: acc) rest

/-- The space-separated words of a text. -/
def wordsOf (text : List Char) : List (List Char) :=
  splitWordsAux [] text

/-- Modelled from the spec: the Path-Space Counter's general admissible
count, the sum over `e = 0 .. min(bound, depth)` of
`C(depth, e) * (alphabetSize - 1) ^ (depth - e)`.  The source only ever
instantiates the two-term `bound = 1` formula, so the general counter
exists only in the spec. -/
def admissibleSpec (alphabetSize bound depth : Nat) : Nat :=
  Finset.sum (Finset.range (min bound depth + 1))
    (fun e => Nat.choose depth e * (alphabetSize - 1) ^ (depth - e))

/-! ### Lemmas about the certifier fold -/

theorem stepDepth_admissible (c : Certifier) (d : Nat) :
    (stepDepth c d).admissible_paths = c.admissible_paths + admissibleAt d := rfl

theorem stepDepth_blocked (c : Certifier) (d : Nat) :
    (stepDepth c d).blocked_paths = c.blocked_paths + blockedAt d := rfl

theorem stepDepth_max_depth (c : Certifier) (d : Nat) :
    (stepDepth c d).max_depth = c.max_depth := rfl

theorem foldl_step_admissible : ∀ (ds : List Nat) (c : Certifier),
    (ds.foldl stepDepth c).admissible_paths
      = c.admissible_paths + (ds.map admissibleAt).sum
  | [], c => by simp
  | d :: ds, c => by
    rw [List.foldl_cons, foldl_step_admissible ds (stepDepth c d),
      stepDepth_admissible]
    simp [add_assoc]

theorem foldl_step_blocked : ∀ (ds : List Nat) (c : Certifier),
    (ds.foldl stepDepth c).blocked_paths
      = c.blocked_paths + (ds.map blockedAt).sum
  | [], c => by simp
  | d :: ds, c => by
    rw [List.foldl_cons, foldl_step_blocked ds (stepDepth c d),
      stepDepth_blocked]
    simp [add_assoc]

theorem foldl_step_max_depth : ∀ (ds : List Nat) (c : Certifier),
    (ds.foldl stepDepth c).max_depth = c.max_depth
  | [], _ => rfl
  | d :: ds, c => by
    rw [List.foldl_cons, foldl_step_max_depth ds (stepDepth c d),
      stepDepth_max_depth]

theorem certify_admissible (c : Certifier) :
    c.certify.admissible_paths
      = c.admissible_paths + ((certDepths c.max_depth).map admissibleAt).sum :=
  foldl_step_admissible _ _

theorem certify_blocked (c : Certifier) :
    c.certify.blocked_paths
      = c.blocked_paths + ((certDepths c.max_depth).map blockedAt).sum :=
  foldl_step_blocked _ _

/-- Each loop iteration splits that depth's `3 ^ depth` paths exactly:
the blocked count is computed by subtraction, so the per-depth identity
holds as an algebraic fact over `Int`. -/
theorem perDepth_total (d : Nat) : admissibleAt d + blockedAt d = 3 ^ d := by
  unfold blockedAt; ring

/-- Sum of a function over `List.range`, as a `Finset.range` sum. -/
theorem list_range_map_sum (g : Nat → Int) : ∀ n : Nat,
    ((List.range n).map g).sum = Finset.sum (Finset.range n) g
  | 0 => by simp
  | n + 1 => by
    rw [List.range_succ, Finset.sum_range_succ, ← list_range_map_sum g n]
    simp

/-- Reindexing a sum over `0..n-1` shifted by one as a sum over `1..n`. -/
theorem sum_range_succ_eq_Icc (f : Nat → Int) : ∀ n : Nat,
    Finset.sum (Finset.range n) (fun i => f (i + 1))
      = Finset.sum (Finset.Icc 1 n) f
  | 0 => by simp
  | n + 1 => by
    rw [Finset.sum_range_succ, sum_range_succ_eq_Icc f n,
      Finset.sum_Icc_succ_top (by omega : 1 ≤ n + 1)]

/-- The accumulated admissible total, as a sum over depths `1..maxDepth`. -/
theorem run_certification_admissible (md : Int) :
    (run_certification md).admissible
      = Finset.sum (Finset.Icc 1 md.toNat) (fun L => admissibleAt L) := by
  show ((Certifier.init md).certify).admissible_paths = _
  rw [certify_admissible]
  show 0 + ((certDepths md).map admissibleAt).sum = _
  rw [zero_add, certDepths, List.map_map, list_range_map_sum]
  exact sum_range_succ_eq_Icc admissibleAt md.toNat

/-- The accumulated blocked total, as a sum over depths `1..maxDepth`. -/
theorem run_certification_blocked (md : Int) :
    (run_certification md).blocked
      = Finset.sum (Finset.Icc 1 md.toNat) (fun L => blockedAt L) := by
  show ((Certifier.init md).certify).blocked_paths = _
  rw [certify_blocked]
  show 0 + ((certDepths md).map blockedAt).sum = _
  rw [zero_add, certDepths, List.map_map, list_range_map_sum]
  exact sum_range_succ_eq_Icc blockedAt md.toNat

/-! ### Lemmas about the gate -/

theorem leadsWith_iff (pat : List Char) : ∀ txt : List Char,
    leadsWith pat txt = true ↔ ∃ rest, txt = pat ++ rest := by
  induction pat with
  | nil => intro txt; simp [leadsWith]
  | cons a pat ih =>
    intro txt
    cases txt with
    | nil => simp [leadsWith]
    | cons b txt =>
      simp only [leadsWith, Bool.and_eq_true, beq_iff_eq, ih, List.cons_append,
        List.cons.injEq]
      constructor
      · rintro ⟨hab, rest, hr⟩
        exact ⟨rest, hab.symm, hr⟩
      · rintro ⟨rest, hba, hr⟩
        exact ⟨hba.symm, rest, hr⟩

theorem occursIn_iff (pat : List Char) : ∀ txt : List Char,
    occursIn pat txt = true ↔ SubstrOf pat txt := by
  intro txt
  induction txt with
  | nil =>
    simp only [occursIn, leadsWith_iff, SubstrOf]
    constructor
    · rintro ⟨rest, hr⟩
      exact ⟨[], rest, hr⟩
    · rintro ⟨pre, post, hp⟩
      rcases List.append_eq_nil.mp ((List.append_assoc pre pat post ▸ hp).symm)
        with ⟨hpre, hrest⟩
      exact ⟨post, by simp [hpre] at hp ⊢; exact hp⟩
  | cons c rest ih =>
    simp only [occursIn, Bool.or_eq_true, leadsWith_iff, ih, SubstrOf]
    constructor
    · rintro (⟨r, hr⟩ | ⟨pre, post, hp⟩)
      · exact ⟨[], r, hr⟩
      · exact ⟨c :: pre, post, by simp [hp]⟩
    · rintro ⟨pre, post, hp⟩
      cases pre with
      | nil => exact Or.inl ⟨post, by simpa using hp⟩
      | cons p pre =>
        refine Or.inr ⟨pre, post, ?_⟩
        simp only [List.cons_append] at hp
        exact (List.cons_eq_cons.mp hp).2

theorem gateWith_iff (rules : List (List Char)) (text : List Char) :
    gateWith rules text = true ↔ ∃ m ∈ rules, SubstrOf m (lowerChars text) := by
  simp [gateWith, List.any_eq_true, occursIn_iff]

theorem any_eq_findSome (p : List Char → Bool) : ∀ rules : List (List Char),
    rules.any p = (rules.find? p).isSome
  | [] => rfl
  | r :: rules => by
    cases hp : p r <;>
      simp [List.any_cons, List.find?_cons, hp, any_eq_findSome p rules]

/-! ### The key inequality `2^L + L * 2^(L-1) ≤ 3^L` -/

theorem key_ineq_aux : ∀ n : Nat, 2 ^ (n + 1) + (n + 1) * 2 ^ n ≤ 3 ^ (n + 1)
  | 0 => by norm_num
  | n + 1 => by
    have ih := key_ineq_aux n
    have h2 : 3 * (2 ^ (n + 1) + (n + 1) * 2 ^ n) ≤ 3 * 3 ^ (n + 1) :=
      Nat.mul_le_mul_left 3 ih
    have e1 : 2 ^ (n + 2) + (n + 2) * 2 ^ (n + 1) = (2 * n + 8) * 2 ^ n := by
      ring
    have e2 : 3 * (2 ^ (n + 1) + (n + 1) * 2 ^ n) = (3 * n + 9) * 2 ^ n := by
      ring
    have e3 : 3 * 3 ^ (n + 1) = 3 ^ (n + 2) := by ring
    have h3 : (2 * n + 8) * 2 ^ n ≤ (3 * n + 9) * 2 ^ n :=
      Nat.mul_le_mul_right _ (by omega)
    calc 2 ^ (n + 2) + (n + 2) * 2 ^ (n + 1) = (2 * n + 8) * 2 ^ n := e1
      _ ≤ (3 * n + 9) * 2 ^ n := h3
      _ = 3 * (2 ^ (n + 1) + (n + 1) * 2 ^ n) := e2.symm
      _ ≤ 3 * 3 ^ (n + 1) := h2
      _ = 3 ^ (n + 2) := e3

theorem key_ineq (L : Nat) (hL : 1 ≤ L) :
    2 ^ L + L * 2 ^ (L - 1) ≤ 3 ^ L := by
  obtain ⟨n, rfl⟩ : ∃ n, L = n + 1 := ⟨L - 1, by omega⟩
  simpa using key_ineq_aux n

/-! ### Claim theorems -/

/-- C1: for every `maxDepth ≥ 1`, after `certify` the cumulative totals
satisfy `admissible_paths + blocked_paths = Σ_{L=1}^{maxDepth} 3^L`, and at
every depth `L ≥ 1` the per-depth admissible and blocked counts sum to
exactly `3^L`. -/
theorem claim1_conservation (md : Int) (_hmd : 1 ≤ md) :
    ((run_certification md).admissible + (run_certification md).blocked
      = Finset.sum (Finset.Icc 1 md.toNat) (fun L => (3 : Int) ^ L))
    ∧ ∀ L : Nat, 1 ≤ L → admissibleAt L + blockedAt L = (3 : Int) ^ L := by
  refine ⟨?_, fun L _ => perDepth_total L⟩
  rw [run_certification_admissible, run_certification_blocked,
    ← Finset.sum_add_distrib]
  exact Finset.sum_congr rfl (fun L _ => perDepth_total L)

/-- C1 witness: the cumulative identity instantiated at `maxDepth = 3`. -/
theorem claim1_conservation_witness :
    (run_certification 3).admissible + (run_certification 3).blocked
      = Finset.sum (Finset.Icc 1 (3 : Int).toNat) (fun L => (3 : Int) ^ L) :=
  (claim1_conservation 3 (by norm_num)).1

/-- C2: the source's two-term formula `2^L + L * 2^(L-1)` equals, for every
`L ≥ 1`, the spec's binomial sum specialized to `alphabetSize = 3`,
`bound = 1`. -/
theorem claim2_two_term_matches_binomial (L : Nat) (hL : 1 ≤ L) :
    admissibleAt L = (admissibleSpec 3 1 L : Int) := by
  unfold admissibleAt admissibleSpec
  rw [Nat.min_eq_left hL, Finset.sum_range_succ, Finset.sum_range_succ,
    Finset.sum_range_zero]
  simp only [Nat.choose_zero_right, Nat.choose_one_right, zero_add,
    Nat.sub_zero, one_mul]
  push_cast
  ring

/-- C2 witness: the refinement instantiated at depth `5`. -/
theorem claim2_two_term_matches_binomial_witness :
    admissibleAt 5 = (admissibleSpec 3 1 5 : Int) :=
  claim2_two_term_matches_binomial 5 (by norm_num)

/-- C3: the concrete scenarios: depth 1 gives admissible 3 / blocked 0,
depth 2 gives admissible 8 / blocked 1, and accumulating depths 1..40 the
total path count is exactly 18,236,498,188,585,393,200 with leaked 0. -/
theorem claim3_concrete_scenarios :
    admissibleAt 1 = 3 ∧ blockedAt 1 = 0
    ∧ admissibleAt 2 = 8 ∧ blockedAt 2 = 1
    ∧ (run_certification 40).total_paths = 18236498188585393200
    ∧ (run_certification 40).leaked = 0 := by
  decide

/-- C4: for every depth `L ≥ 1`, admissible and blocked per-depth counts
are non-negative, because `2^L + L * 2^(L-1) ≤ 3^L`; the subtraction on
line 86 never produces a negative blocked count. -/
theorem claim4_counts_nonneg (L : Nat) (hL : 1 ≤ L) :
    0 ≤ admissibleAt L ∧ 0 ≤ blockedAt L ∧ admissibleAt L ≤ (3 : Int) ^ L := by
  have hkey := key_ineq L hL
  have hle : admissibleAt L ≤ (3 : Int) ^ L := by
    unfold admissibleAt
    exact_mod_cast hkey
  have hadm : (0 : Int) ≤ admissibleAt L := by
    unfold admissibleAt
    positivity
  refine ⟨hadm, ?_, hle⟩
  unfold blockedAt
  omega

/-- C4 witness: non-negativity instantiated at depth `7`. -/
theorem claim4_counts_nonneg_witness :
    0 ≤ admissibleAt 7 ∧ 0 ≤ blockedAt 7 ∧ admissibleAt 7 ≤ (3 : Int) ^ 7 :=
  claim4_counts_nonneg 7 (by norm_num)

/-- C5 counterexample: the claim says `certify` fails with
`InvalidParameter` when `maxDepth < 1` and returns no results; the source
performs no validation at all, and at `maxDepth = 0` (< 1) it returns a
complete zero-count `CertResult` instead of failing. -/
theorem claim5_counterexample :
    run_certification 0
      = { total_paths := 0, admissible := 0, blocked := 0, leaked := 0 } := by
  decide

/-- C5 amended: when `maxDepth < 1` the loop `range(1, maxDepth + 1)` is
empty, so `run_certification` raises no error and returns a result with
every count zero (and `leaked = 0`). -/
theorem claim5_no_validation (md : Int) (h : md < 1) :
    run_certification md
      = { total_paths := 0, admissible := 0, blocked := 0, leaked := 0 } := by
  have h0 : md.toNat = 0 := by omega
  simp [run_certification, Certifier.certify, Certifier.init, certDepths, h0]

/-- C5 amended witness: instantiated at `maxDepth = -5`. -/
theorem claim5_no_validation_witness :
    run_certification (-5)
      = { total_paths := 0, admissible := 0, blocked := 0, leaked := 0 } :=
  claim5_no_validation (-5) (by norm_num)

/-- C6 counterexample: invoking `certify` a second time on the same
instance does NOT leave the counts identical: with `max_depth = 1` the
admissible counter is 3 after one call and 6 after two, because `certify`
accumulates into the instance fields it never resets. -/
theorem claim6_counterexample :
    ¬ ((Certifier.init 1).certify.certify.admissible_paths
        = (Certifier.init 1).certify.admissible_paths) := by
  decide

/-- C6 amended: `run_certification` and the gate are pure functions of
their inputs, but `certify` carries hidden state across calls on one
instance: a second invocation adds the same per-depth totals again,
exactly doubling both accumulated counters. -/
theorem claim6_rerun_doubles (md : Int) :
    ((Certifier.init md).certify.certify.admissible_paths
        = 2 * (Certifier.init md).certify.admissible_paths)
    ∧ (Certifier.init md).certify.certify.blocked_paths
        = 2 * (Certifier.init md).certify.blocked_paths := by
  have hmax : (Certifier.init md).certify.max_depth = md :=
    foldl_step_max_depth _ _
  constructor
  · rw [certify_admissible ((Certifier.init md).certify), hmax,
      certify_admissible (Certifier.init md)]
    simp [Certifier.init]
    ring
  · rw [certify_blocked ((Certifier.init md).certify), hmax,
      certify_blocked (Certifier.init md)]
    simp [Certifier.init]
    ring

/-- C7: the gate admits a text iff some configured marker occurs as a
substring of the lowercased text; the empty text is blocked; and the
matching loop over an empty rule collection blocks every text. -/
theorem claim7_gate_semantics :
    (∀ text : List Char,
        lml_gate text = true
          ↔ ∃ m ∈ grounding_markers, SubstrOf m (lowerChars text))
    ∧ lml_gate [] = false
    ∧ ∀ text : List Char, gateWith [] text = false :=
  ⟨fun text => gateWith_iff grounding_markers text, by decide, fun _ => rfl⟩

/-- C8 counterexample: the gate's entire return value is one boolean; on
two texts whose first matching marker differs ("according to" vs "study")
the returned values are identical, so the result cannot contain a
`matchedIndicator` field as the claim asserts. -/
theorem claim8_counterexample :
    lml_gate ("according to x".toList) = lml_gate ("a study".toList)
    ∧ firstMatch ("according to x".toList) ≠ firstMatch ("a study".toList) := by
  decide

/-- C8 amended: `lml_gate` returns only the admitted boolean; a first
matching marker under the source's fixed iteration order exists exactly
when the gate admits, but it is not part of the return value. -/
theorem claim8_admit_iff_first_match (text : List Char) :
    lml_gate text = (firstMatch text).isSome := by
  unfold lml_gate gateWith firstMatch
  exact any_eq_findSome _ grounding_markers

/-- C10: substring matching respects no word boundaries: the text
"They are Studying birds" is admitted because the marker "study" occurs
inside the word "studying", even though no marker occurs as a standalone
word of the text. -/
theorem claim10_no_word_boundary :
    lml_gate ("They are Studying birds".toList) = true
    ∧ occursIn ("study".toList)
        (lowerChars ("They are Studying birds".toList)) = true
    ∧ (grounding_markers.all (fun m =>
        !((wordsOf (lowerChars ("They are Studying birds".toList))).contains
          m))) = true := by
  decide

/-- C9: all certifier arithmetic is exact: at every depth `L ≤ 40` the
per-depth counts split `3^L` exactly, and the depth-40 cumulative total
equals the exact mathematical sum `Σ_{L=1}^{40} 3^L =
18,236,498,188,585,393,200`, a value exceeding both `10^19` and `2^63`
(so it would not survive 64-bit signed arithmetic). -/
theorem claim9_exact_arithmetic :
    (∀ L : Nat, 1 ≤ L → L ≤ 40 → admissibleAt L + blockedAt L = (3 : Int) ^ L)
    ∧ ((run_certification 40).total_paths
        = Finset.sum (Finset.Icc 1 (40 : Int).toNat) (fun L => (3 : Int) ^ L))
    ∧ (run_certification 40).total_paths = 18236498188585393200
    ∧ (10 : Int) ^ 19 < (run_certification 40).total_paths
    ∧ (2 : Int) ^ 63 < (run_certification 40).total_paths := by
  refine ⟨fun L _ _ => perDepth_total L, ?_, by decide, by decide, by decide⟩
  have htot : (run_certification 40).total_paths
      = (run_certification 40).admissible + (run_certification 40).blocked :=
    rfl
  rw [htot, run_certification_admissible, run_certification_blocked,
    ← Finset.sum_add_distrib]
  exact Finset.sum_congr rfl (fun L _ => perDepth_total L)

/-- C9 witness: the per-depth exactness instantiated at depth `40`. -/
theorem claim9_exact_arithmetic_witness :
    admissibleAt 40 + blockedAt 40 = (3 : Int) ^ 40 :=
  claim9_exact_arithmetic.1 40 (by norm_num) (by norm_num)

end LML
